/-
Verification of the job-lifecycle core of `webapp2/app.py` (class
`YouTubeDownloader`): job submission, the admission queue, the worker
that drives the extraction backend, progress propagation, cancellation,
the history ledger, and stale-artifact cleanup.

Modelling conventions:
* Python `datetime` values are modelled as natural numbers (seconds);
  `timedelta(hours=h)` is `h * 3600`.
* The float `progress` field and the float division in `progress_hook`
  are modelled over `ℚ` (the hook divides two byte counts and the code
  only compares the result against 99/100).
* `hashlib.md5(...).hexdigest()` is abstracted as a parameter
  `digest : String → String`; `start_download` truncates its output to
  12 characters exactly as the source does.  No property of the digest
  is assumed anywhere.
* The Python dict `self.active_downloads` is an association list with
  overwriting insert; `queue.Queue` is a FIFO list (put = append at the
  tail, get = pop at the head).
* The filesystem is a duplicate-free list of existing paths;
  `os.remove` is `List.erase`, `os.path.exists` is membership.
-/
import Mathlib

namespace YTDL

/-- Job status values actually written by `app.py`: `'queued'`,
`'downloading'`, `'completed'`, `'error'`, `'cancelled'`. -/
inductive Status where
  | queued
  | downloading
  | completed
  | error
  | cancelled
deriving DecidableEq, Repr

/-- One entry of `self.active_downloads` / `self.download_history`:
the `download_info` dict built in `start_download`. -/
structure DownloadInfo where
  id : String
  url : String
  quality : String
  formatType : String
  cookies : Option String
  customFilename : Option String
  status : Status
  progress : ℚ
  startTime : Nat
  errorMsg : Option String
  filePath : Option String
  fileSize : Nat
  endTime : Option Nat
deriving DecidableEq, Repr

/-- The single background worker thread (`_download_worker`) is either
between jobs or inside `_process_download`/`ydl.download` for one id. -/
inductive WorkerPhase where
  | idle
  | working (did : String)
deriving DecidableEq, Repr

/-- The mutable state of a `YouTubeDownloader` instance: the
`active_downloads` dict, the `download_queue`, the `download_history`
list, and the position of the worker thread. -/
structure DLState where
  active : List (String × DownloadInfo)
  dlQueue : List String
  history : List DownloadInfo
  phase : WorkerPhase
deriving DecidableEq, Repr

/-- Fresh `YouTubeDownloader.__init__` state. -/
def initState : DLState :=
  { active := [], dlQueue := [], history := [], phase := .idle }

/-! ### Dict operations (`self.active_downloads`) -/

/-- `self.active_downloads.get(k)`. -/
def storeFind (a : List (String × DownloadInfo)) (k : String) :
    Option DownloadInfo :=
  match a with
  | [] => none
  | (k', v) :: rest => if k' = k then some v else storeFind rest k

/-- `self.active_downloads[k] = v` (overwrites an existing binding). -/
def storeInsert (a : List (String × DownloadInfo)) (k : String)
    (v : DownloadInfo) : List (String × DownloadInfo) :=
  (k, v) :: a.filter (fun p => p.1 ≠ k)

/-- In-place mutation of the dict entry at `k` (the worker and
`cancel_download` mutate the shared `download_info` object). -/
def storeUpdate (a : List (String × DownloadInfo)) (k : String)
    (f : DownloadInfo → DownloadInfo) : List (String × DownloadInfo) :=
  a.map (fun p => (p.1, if p.1 = k then f p.2 else p.2))

/-! ### URL validation (`_validate_url`) -/

/-- Whether `pat` is a leading segment of `s`. -/
def startsWithL : List Char → List Char → Bool
  | [], _ => true
  | _ :: _, [] => false
  | a :: as, b :: bs => a == b && startsWithL as bs

/-- Whether `pat` occurs contiguously inside `s` (Python `pat in s`). -/
def hasSegment (pat : List Char) : List Char → Bool
  | [] => startsWithL pat []
  | b :: bs => startsWithL pat (b :: bs) || hasSegment pat bs

/-- The suffix following the first occurrence of `pat`, if any. -/
def afterSeg (pat : List Char) : List Char → Option (List Char)
  | [] => if pat.isEmpty then some [] else none
  | c :: cs =>
    if startsWithL pat (c :: cs) then some (List.drop pat.length (c :: cs))
    else afterSeg pat cs

/-- `urlparse(url).netloc` as a character list: the host part between
the `//` and the next delimiter; empty when the URL has no `//` (as
`urlparse` yields). -/
def netlocOf (url : String) : List Char :=
  match afterSeg ['/', '/'] url.toList with
  | none => []
  | some rest => rest.takeWhile (fun c => !(c == '/' || c == '?' || c == '#'))

/-- `_validate_url` (app.py lines 163-169): the lowercased netloc must
contain `youtube.com` or `youtu.be` (`.lower()` applied per character,
as Python does). -/
def validateUrl (url : String) : Bool :=
  let nl := (netlocOf url).map Char.toLower
  hasSegment "youtube.com".toList nl || hasSegment "youtu.be".toList nl

/-! ### Submission (`start_download`, lines 242-267) -/

/-- `hashlib.md5(f"{url}_{time.time()}".encode()).hexdigest()[:12]`,
with the digest abstract and the clock reading a natural number. -/
def downloadId (digest : String → String) (url : String) (now : Nat) :
    String :=
  (digest (url ++ "_" ++ toString now)).take 12

/-- The fresh `download_info` dict of `start_download` (lines 248-261):
`status='queued'`, `progress=0`, `start_time=now`, everything else
empty. -/
def newInfo (did url quality formatType : String)
    (cookies customFilename : Option String) (now : Nat) : DownloadInfo :=
  { id := did, url := url, quality := quality, formatType := formatType
    cookies := cookies, customFilename := customFilename
    status := .queued, progress := 0, startTime := now
    errorMsg := none, filePath := none, fileSize := 0, endTime := none }

/-- `start_download`: build the `download_info` dict with
`status='queued'`, store it, enqueue the id, return the id.  (The
source performs no URL validation here.) -/
def startDownload (digest : String → String) (s : DLState)
    (url quality formatType : String) (cookies customFilename : Option String)
    (now : Nat) : String × DLState :=
  let did := downloadId digest url now
  (did, { s with
            active := storeInsert s.active did
              (newInfo did url quality formatType cookies customFilename now)
            dlQueue := s.dlQueue ++ [did] })

/-! ### Progress hook (`progress_hook`, lines 292-301) -/

/-- The `d['status']` field of a yt-dlp progress event. -/
inductive HookStatus where
  | downloading
  | finished
  | other
deriving DecidableEq, Repr

/-- A yt-dlp progress event as read by `progress_hook`; `none` models an
absent or `None` key. -/
structure HookEvent where
  hkStatus : HookStatus
  downloadedBytes : Nat
  totalBytes : Option Nat
  totalBytesEstimate : Option Nat
deriving DecidableEq, Repr

/-- `min((downloaded_bytes / total) * 100, 99)`. -/
def progressOfBytes (dl t : Nat) : ℚ :=
  min ((dl : ℚ) / (t : ℚ) * 100) 99

/-- `progress_hook(d)`: on a `'downloading'` event with a truthy
`total_bytes` (else truthy `total_bytes_estimate`) write the capped
percentage; on `'finished'` write `progress = 100`; otherwise no-op.
Only the `progress` field is ever written. -/
def progressHook (info : DownloadInfo) (d : HookEvent) : DownloadInfo :=
  match d.hkStatus with
  | .downloading =>
    match d.totalBytes with
    | some t =>
      if t ≠ 0 then { info with progress := progressOfBytes d.downloadedBytes t }
      else
        match d.totalBytesEstimate with
        | some te =>
          if te ≠ 0 then { info with progress := progressOfBytes d.downloadedBytes te }
          else info
        | none => info
    | none =>
      match d.totalBytesEstimate with
      | some te =>
        if te ≠ 0 then { info with progress := progressOfBytes d.downloadedBytes te }
        else info
      | none => info
  | .finished => { info with progress := 100 }
  | .other => info

/-! ### The worker (`_download_worker` / `_process_download`) -/

/-- Lines 288-289: `status = 'downloading'; progress = 0`. -/
def markDownloading (i : DownloadInfo) : DownloadInfo :=
  { i with status := .downloading, progress := 0 }

/-- One `queue.get` plus the entry of `_process_download` (lines
283-289): pop the id; if `active_downloads.get(id)` is `None` return
with no further effect, otherwise mark the record `'downloading'` and
proceed to the backend call. -/
def workerPick (s : DLState) (did : String) (rest : List String) : DLState :=
  match storeFind s.active did with
  | none => { s with dlQueue := rest }
  | some _ =>
    { s with dlQueue := rest
             active := storeUpdate s.active did markDownloading
             phase := .working did }

/-- `_process_download` reaches `ydl.download` iff the record lookup at
its entry succeeds; the lookup is the only guard before the backend
call (lines 283-318) — the record's status is never consulted. -/
def willInvokeBackend (s : DLState) (did : String) : Bool :=
  (storeFind s.active did).isSome

/-- The outcome of the `ydl.download` call plus the `output_dir.glob`
scan: either the backend raised, or it returned and the output
directory holds the listed files (path, size). -/
inductive BackendResult where
  | success (files : List (String × Nat))
  | failure (msg : String)
deriving DecidableEq, Repr

/-- The record mutation of the `except` block (lines 344-346):
`status='error'`, `error=str(e)`, `end_time=now`. -/
def errorMut (msg : String) (now : Nat) (i : DownloadInfo) : DownloadInfo :=
  { i with status := .error, errorMsg := some msg, endTime := some now }

/-- The record mutation of the success path (lines 332-336):
`status='completed'`, `progress=100`, the artifact data and
`end_time=now`. -/
def completeMut (path : String) (size : Nat) (now : Nat)
    (i : DownloadInfo) : DownloadInfo :=
  { i with status := .completed, progress := (100 : ℚ)
           filePath := some path, fileSize := size, endTime := some now }

/-- The `except` block of `_process_download` (lines 343-347):
`status='error'`, `error=str(e)`, `end_time=now`.  No history append. -/
def setError (s : DLState) (did msg : String) (now : Nat) : DLState :=
  { s with active := storeUpdate s.active did (errorMut msg now) }

/-- The part of `_process_download` after the backend call (lines
320-347): empty output or a zero-byte first file raises into the
`except` path; otherwise the record is overwritten with
`status='completed'`, `progress=100`, the file data and `end_time`, and
a copy is appended to `download_history`.  The current record is
re-read because the worker mutates the same shared dict entry. -/
def finishDownload (s : DLState) (did : String) (res : BackendResult)
    (now : Nat) : DLState :=
  match res with
  | .failure msg => { setError s did msg now with phase := .idle }
  | .success [] =>
    { setError s did "No file was downloaded" now with phase := .idle }
  | .success ((path, size) :: _) =>
    if size = 0 then
      { setError s did "Downloaded file is empty" now with phase := .idle }
    else
      match storeFind s.active did with
      | none => { s with phase := .idle }
      | some i =>
        { s with active := storeUpdate s.active did
                   (fun _ => completeMut path size now i)
                 history := s.history ++ [completeMut path size now i]
                 phase := .idle }

/-- A progress callback firing while the worker is inside the backend
call: mutates the shared `download_info` object. -/
def hookApply (s : DLState) (did : String) (d : HookEvent) : DLState :=
  { s with active := storeUpdate s.active did (fun i => progressHook i d) }

/-! ### Cancellation, history, cleanup -/

/-- `cancel_download` (lines 361-369): if the id is known and its status
is `'queued'` or `'downloading'`, set `status='cancelled'`,
`end_time=now` and return `True`; otherwise return `False`. -/
def cancelMut (now : Nat) (j : DownloadInfo) : DownloadInfo :=
  { j with status := .cancelled, endTime := some now }

def cancelDownload (s : DLState) (did : String) (now : Nat) :
    Bool × DLState :=
  match storeFind s.active did with
  | none => (false, s)
  | some i =>
    if i.status = .queued ∨ i.status = .downloading then
      (true, { s with active := storeUpdate s.active did (cancelMut now) })
    else (false, s)

/-- The Python default argument `limit = 50` of `get_download_history`. -/
def defaultHistoryLimit : Nat := 50

/-- `get_download_history(limit)` = `self.download_history[-limit:]` for
a non-negative `limit`: the whole list when `limit = 0` (Python `[-0:]`
is `[0:]`), else the suffix of length `min limit length`. -/
def getDownloadHistory (s : DLState) (limit : Nat) : List DownloadInfo :=
  if limit = 0 then s.history
  else s.history.drop (s.history.length - limit)

/-- One iteration of the `cleanup_old_files` loop body (lines 375-383)
against the filesystem `fs`: if the entry has an `end_time` older than
the cutoff and a `file_path` that exists, remove that file (`os.remove`
inside try/except — a missing file is simply left alone). -/
def sweepStep (cutoff : Nat) (fs : List String) (i : DownloadInfo) :
    List String :=
  match i.endTime with
  | some e =>
    if e < cutoff then
      match i.filePath with
      | some p => if fs.contains p then fs.erase p else fs
      | none => fs
    else fs
  | none => fs

/-- `cleanup_old_files(max_age_hours)` (lines 371-383): walk the
history; for entries with an `end_time` older than
`now - max_age_hours` whose `file_path` exists, remove the file.  The
ledger itself is returned untouched; only the filesystem changes. -/
def cleanupOldFiles (s : DLState) (now maxAgeHours : Nat)
    (fs : List String) : DLState × List String :=
  let cutoff := now - maxAgeHours * 3600
  (s, s.history.foldl (sweepStep cutoff) fs)

/-- The artifact path `cleanup_old_files` would target for one history
entry at a given cutoff: its `file_path` when its `end_time` is below
the cutoff. -/
def sweepTarget (cutoff : Nat) (i : DownloadInfo) : Option String :=
  match i.endTime with
  | some e => if e < cutoff then i.filePath else none
  | none => none

/-- All artifact paths `cleanup_old_files` targets at a given cutoff. -/
def sweepTargets (hist : List DownloadInfo) (cutoff : Nat) : List String :=
  hist.filterMap (sweepTarget cutoff)

/-! ### Interleaving semantics

One atomic step is one of: a `start_download` call, the worker popping
an id and entering `_process_download`, a progress callback inside the
backend call, the worker finishing `_process_download` with a given
backend outcome, or a `cancel_download` call from another thread.  The
`hfresh` hypothesis on `submit` restricts attention to executions in
which the truncated digests of distinct submissions do not collide
(collisions are analysed separately, on `startDownload` itself). -/

inductive Step (digest : String → String) : DLState → DLState → Prop where
  | submit (s : DLState) (url q fmt : String) (ck cf : Option String)
      (now : Nat)
      (hfresh : storeFind s.active (downloadId digest url now) = none) :
      Step digest s (startDownload digest s url q fmt ck cf now).2
  | pick (s : DLState) (did : String) (rest : List String)
      (hq : s.dlQueue = did :: rest) (hphase : s.phase = .idle) :
      Step digest s (workerPick s did rest)
  | hook (s : DLState) (did : String) (d : HookEvent)
      (hphase : s.phase = .working did) :
      Step digest s (hookApply s did d)
  | finish (s : DLState) (did : String) (res : BackendResult) (now : Nat)
      (hphase : s.phase = .working did) :
      Step digest s (finishDownload s did res now)
  | cancel (s : DLState) (did : String) (now : Nat) :
      Step digest s (cancelDownload s did now).2

/-- States reachable from a fresh downloader instance. -/
inductive Reachable (digest : String → String) : DLState → Prop where
  | init : Reachable digest initState
  | step {s s' : DLState} : Reachable digest s → Step digest s s' →
      Reachable digest s'

/-! ### Lemmas about the dict operations -/

theorem storeFind_filter_ne (a : List (String × DownloadInfo)) {k k' : String}
    (h : k' ≠ k) :
    storeFind (a.filter (fun p => p.1 ≠ k)) k' = storeFind a k' := by
  simp only [ne_eq, decide_not]
  induction a with
  | nil => rfl
  | cons p rest ih =>
    obtain ⟨k1, v1⟩ := p
    by_cases hp : k1 = k
    · subst hp
      have hne : ¬ (k1 = k') := fun hk => h hk.symm
      simp [storeFind, hne, ih]
    · by_cases hpk' : k1 = k'
      · subst hpk'
        simp [storeFind, hp]
      · simp [storeFind, hp, hpk', ih]

theorem storeFind_insert_self (a : List (String × DownloadInfo))
    (k : String) (v : DownloadInfo) :
    storeFind (storeInsert a k v) k = some v := by
  simp [storeFind, storeInsert]

theorem storeFind_insert_ne (a : List (String × DownloadInfo))
    {k k' : String} (v : DownloadInfo) (h : k' ≠ k) :
    storeFind (storeInsert a k v) k' = storeFind a k' := by
  have hkk : ¬ (k = k') := fun hk => h hk.symm
  have h2 := storeFind_filter_ne a h
  simpa [storeFind, storeInsert, hkk, ne_eq, decide_not] using h2

theorem storeFind_update_self (a : List (String × DownloadInfo))
    (k : String) (f : DownloadInfo → DownloadInfo) :
    storeFind (storeUpdate a k f) k = (storeFind a k).map f := by
  induction a with
  | nil => rfl
  | cons p rest ih =>
    obtain ⟨k1, v1⟩ := p
    by_cases hp : k1 = k
    · subst hp
      simp [storeFind, storeUpdate]
    · simp only [storeUpdate, List.map_cons] at ih ⊢
      simp [storeFind, hp, ih]

theorem storeFind_update_ne (a : List (String × DownloadInfo))
    {k k' : String} (f : DownloadInfo → DownloadInfo) (h : k' ≠ k) :
    storeFind (storeUpdate a k f) k' = storeFind a k' := by
  induction a with
  | nil => rfl
  | cons p rest ih =>
    obtain ⟨k1, v1⟩ := p
    by_cases hp : k1 = k
    · subst hp
      have hne : ¬ (k1 = k') := fun hk => h hk.symm
      simp only [storeUpdate, List.map_cons] at ih ⊢
      simp [storeFind, hne, ih]
    · by_cases hpk' : k1 = k'
      · subst hpk'
        simp only [storeUpdate, List.map_cons] at ih ⊢
        simp [storeFind, hp]
      · simp only [storeUpdate, List.map_cons] at ih ⊢
        simp [storeFind, hp, hpk', ih]

theorem storeFind_update_isSome (a : List (String × DownloadInfo))
    (k k' : String) (f : DownloadInfo → DownloadInfo) :
    (storeFind (storeUpdate a k f) k').isSome = (storeFind a k').isSome := by
  by_cases h : k' = k
  · subst h; rw [storeFind_update_self]; cases storeFind a k' <;> rfl
  · rw [storeFind_update_ne a f h]

theorem storeFind_insert_isSome (a : List (String × DownloadInfo))
    {k' : String} (k : String) (v : DownloadInfo)
    (h : (storeFind a k').isSome = true) :
    (storeFind (storeInsert a k v) k').isSome = true := by
  by_cases hk : k' = k
  · subst hk; rw [storeFind_insert_self]; rfl
  · rw [storeFind_insert_ne a v hk]; exact h

theorem storeFind_mem {a : List (String × DownloadInfo)} {k : String}
    {v : DownloadInfo} (h : storeFind a k = some v) : (k, v) ∈ a := by
  induction a with
  | nil => simp [storeFind] at h
  | cons p rest ih =>
    obtain ⟨k1, v1⟩ := p
    by_cases hp : k1 = k
    · subst hp
      simp [storeFind] at h
      subst h
      exact List.mem_cons_self _ _
    · simp [storeFind, hp] at h
      exact List.mem_cons_of_mem _ (ih h)

/-! ### Occurrence counting for the exactly-once bookkeeping -/

/-- Occurrences of an id in the admission queue. -/
def queueCount (q : List String) (did : String) : Nat :=
  match q with
  | [] => 0
  | x :: rest => (if x = did then 1 else 0) + queueCount rest did

/-- 1 when the worker is inside `_process_download` for this id. -/
def phaseCount (s : DLState) (did : String) : Nat :=
  match s.phase with
  | .working j => if j = did then 1 else 0
  | .idle => 0

/-- Occurrences of an id among the history snapshots. -/
def histCount (h : List DownloadInfo) (did : String) : Nat :=
  match h with
  | [] => 0
  | i :: rest => (if i.id = did then 1 else 0) + histCount rest did

theorem queueCount_append (a b : List String) (did : String) :
    queueCount (a ++ b) did = queueCount a did + queueCount b did := by
  induction a with
  | nil => simp [queueCount]
  | cons x rest ih => simp [queueCount, ih]; omega

theorem queueCount_pos_of_mem {q : List String} {did : String}
    (h : did ∈ q) : 0 < queueCount q did := by
  induction q with
  | nil => cases h
  | cons x rest ih =>
    rcases List.mem_cons.mp h with rfl | hm
    · simp [queueCount]
    · have := ih hm
      simp [queueCount]
      omega

theorem mem_of_queueCount_pos {q : List String} {did : String}
    (h : 0 < queueCount q did) : did ∈ q := by
  induction q with
  | nil => simp [queueCount] at h
  | cons x rest ih =>
    by_cases hx : x = did
    · subst hx; exact List.mem_cons_self _ _
    · simp [queueCount, hx] at h
      exact List.mem_cons_of_mem _ (ih h)

theorem histCount_append (a b : List DownloadInfo) (did : String) :
    histCount (a ++ b) did = histCount a did + histCount b did := by
  induction a with
  | nil => simp [histCount]
  | cons i rest ih => simp [histCount, ih]; omega

theorem histCount_pos_of_mem {h : List DownloadInfo} {i : DownloadInfo}
    (hm : i ∈ h) {did : String} (hid : i.id = did) :
    0 < histCount h did := by
  induction h with
  | nil => cases hm
  | cons j rest ih =>
    rcases List.mem_cons.mp hm with rfl | hm'
    · simp [histCount, hid]
    · have := ih hm'
      simp [histCount]
      omega

theorem exists_of_histCount_pos {h : List DownloadInfo} {did : String}
    (hp : 0 < histCount h did) : ∃ i ∈ h, i.id = did := by
  induction h with
  | nil => simp [histCount] at hp
  | cons j rest ih =>
    by_cases hid : j.id = did
    · exact ⟨j, List.mem_cons_self _ _, hid⟩
    · simp [histCount, hid] at hp
      obtain ⟨i, hi, hd⟩ := ih hp
      exact ⟨i, List.mem_cons_of_mem _ hi, hd⟩

theorem queueCount_eq_zero_of_not_mem {q : List String} {did : String}
    (h : did ∉ q) : queueCount q did = 0 :=
  Nat.eq_zero_of_not_pos (fun hpos => h (mem_of_queueCount_pos hpos))

/-! ### What each record mutator leaves untouched -/

theorem progressHook_eq_setProgress (i : DownloadInfo) (d : HookEvent) :
    ∃ q, progressHook i d = { i with progress := q } := by
  unfold progressHook
  rcases d with ⟨st, db, tb, tbe⟩
  cases st <;> cases tb <;> cases tbe <;> dsimp only <;> (repeat' split)
  all_goals exact ⟨_, rfl⟩

theorem progressHook_status (i : DownloadInfo) (d : HookEvent) :
    (progressHook i d).status = i.status := by
  obtain ⟨q, hq⟩ := progressHook_eq_setProgress i d
  rw [hq]

theorem progressHook_id (i : DownloadInfo) (d : HookEvent) :
    (progressHook i d).id = i.id := by
  obtain ⟨q, hq⟩ := progressHook_eq_setProgress i d
  rw [hq]

theorem keyId_update {a : List (String × DownloadInfo)} {k : String}
    {f : DownloadInfo → DownloadInfo}
    (hf : ∀ w, (f w).id = w.id ∨ (f w).id = k)
    (h : ∀ p ∈ a, p.2.id = p.1) :
    ∀ p ∈ storeUpdate a k f, p.2.id = p.1 := by
  intro p hp
  simp only [storeUpdate, List.mem_map] at hp
  obtain ⟨q, hq, rfl⟩ := hp
  dsimp only
  by_cases hqk : q.1 = k
  · rw [if_pos hqk]
    rcases hf q.2 with h1 | h1
    · rw [h1]; exact h q hq
    · rw [h1, hqk]
  · rw [if_neg hqk]
    exact h q hq

/-! ### Shape lemmas: each operation as an explicit state literal -/

theorem startDownload_snd (digest : String → String) (s : DLState)
    (url q fmt : String) (ck cf : Option String) (now : Nat) :
    (startDownload digest s url q fmt ck cf now).2
      = { s with
            active := storeInsert s.active (downloadId digest url now)
              (newInfo (downloadId digest url now) url q fmt ck cf now)
            dlQueue := s.dlQueue ++ [downloadId digest url now] } := rfl

theorem workerPick_none {s : DLState} {did : String} (rest : List String)
    (h : storeFind s.active did = none) :
    workerPick s did rest = { s with dlQueue := rest } := by
  unfold workerPick
  rw [h]

theorem workerPick_some {s : DLState} {did : String} (rest : List String)
    {i : DownloadInfo} (h : storeFind s.active did = some i) :
    workerPick s did rest
      = { s with dlQueue := rest
                 active := storeUpdate s.active did markDownloading
                 phase := .working did } := by
  unfold workerPick
  rw [h]

theorem cancelDownload_unknown {s : DLState} {did : String} (now : Nat)
    (h : storeFind s.active did = none) :
    cancelDownload s did now = (false, s) := by
  unfold cancelDownload
  rw [h]

theorem cancelDownload_live {s : DLState} {did : String} (now : Nat)
    {i : DownloadInfo} (h : storeFind s.active did = some i)
    (hst : i.status = .queued ∨ i.status = .downloading) :
    cancelDownload s did now
      = (true, { s with active := storeUpdate s.active did (cancelMut now) }) := by
  unfold cancelDownload
  rw [h]
  exact if_pos hst

theorem cancelDownload_terminal {s : DLState} {did : String} (now : Nat)
    {i : DownloadInfo} (h : storeFind s.active did = some i)
    (hst : ¬ (i.status = .queued ∨ i.status = .downloading)) :
    cancelDownload s did now = (false, s) := by
  unfold cancelDownload
  rw [h]
  exact if_neg hst

theorem finishDownload_failure (s : DLState) (did msg : String) (now : Nat) :
    finishDownload s did (.failure msg) now
      = { s with active := storeUpdate s.active did (errorMut msg now)
                 phase := .idle } := rfl

theorem finishDownload_nil (s : DLState) (did : String) (now : Nat) :
    finishDownload s did (.success []) now
      = { s with
            active := storeUpdate s.active did
              (errorMut "No file was downloaded" now)
            phase := .idle } := rfl

theorem finishDownload_zero (s : DLState) (did path : String)
    (rest' : List (String × Nat)) (now : Nat) :
    finishDownload s did (.success ((path, 0) :: rest')) now
      = { s with
            active := storeUpdate s.active did
              (errorMut "Downloaded file is empty" now)
            phase := .idle } := rfl

theorem finishDownload_pos {s : DLState} {did : String} (path : String)
    {size : Nat} (rest' : List (String × Nat)) (now : Nat)
    {i : DownloadInfo} (hz : ¬ size = 0)
    (h : storeFind s.active did = some i) :
    finishDownload s did (.success ((path, size) :: rest')) now
      = { s with
            active := storeUpdate s.active did
              (fun _ => completeMut path size now i)
            history := s.history ++ [completeMut path size now i]
            phase := .idle } := by
  unfold finishDownload
  dsimp only
  rw [if_neg hz, h]

theorem queueCount_singleton (x did : String) :
    queueCount [x] did = if x = did then 1 else 0 := by
  simp [queueCount]

theorem histCount_singleton (i : DownloadInfo) (did : String) :
    histCount [i] did = if i.id = did then 1 else 0 := by
  simp [histCount]

/-! ### The reachability invariant

`Inv` collects the structural facts that hold in every state a real
execution (per `Step`) can reach: every stored pair's record carries
its own key as `id`; ids still in the queue are stored with status
`'queued'` or `'cancelled'`; the id the worker is processing is stored
with status `'downloading'` or `'cancelled'`; every history snapshot's
id is a stored id; and each id occurs at most once across queue, worker
and history together. -/

structure Inv (s : DLState) : Prop where
  keyId : ∀ p ∈ s.active, p.2.id = p.1
  queueRec : ∀ did ∈ s.dlQueue, ∃ i, storeFind s.active did = some i ∧
      (i.status = .queued ∨ i.status = .cancelled)
  phaseRec : ∀ did, s.phase = .working did → ∃ i,
      storeFind s.active did = some i ∧
      (i.status = .downloading ∨ i.status = .cancelled)
  histRec : ∀ i ∈ s.history, (storeFind s.active i.id).isSome = true
  counts : ∀ did,
      queueCount s.dlQueue did + phaseCount s did + histCount s.history did ≤ 1

theorem inv_init : Inv initState := by
  refine ⟨?_, ?_, ?_, ?_, ?_⟩
  · intro p hp; cases hp
  · intro did hd; cases hd
  · intro did h; cases h
  · intro i hi; cases hi
  · intro did; simp [initState, queueCount, phaseCount, histCount]

theorem inv_submit (digest : String → String) {s : DLState}
    (hInv : Inv s) (url q fmt : String) (ck cf : Option String) (now : Nat)
    (hfresh : storeFind s.active (downloadId digest url now) = none) :
    Inv (startDownload digest s url q fmt ck cf now).2 := by
  have hnotq : downloadId digest url now ∉ s.dlQueue := by
    intro hm
    obtain ⟨i, hi, -⟩ := hInv.queueRec _ hm
    rw [hfresh] at hi
    cases hi
  have hnotph : ∀ j, s.phase = .working j → j ≠ downloadId digest url now := by
    intro j hj hje
    obtain ⟨i, hi, -⟩ := hInv.phaseRec j hj
    rw [hje, hfresh] at hi
    cases hi
  have hnoth : histCount s.history (downloadId digest url now) = 0 := by
    by_contra hne
    obtain ⟨i, hi, hd⟩ := exists_of_histCount_pos (Nat.pos_of_ne_zero hne)
    have hs := hInv.histRec i hi
    rw [hd, hfresh] at hs
    cases hs
  rw [startDownload_snd]
  refine ⟨?_, ?_, ?_, ?_, ?_⟩
  · intro p hp
    rcases List.mem_cons.mp hp with rfl | hp'
    · rfl
    · exact hInv.keyId p (List.mem_of_mem_filter hp')
  · intro did hd
    rcases List.mem_append.mp hd with hold | hnew
    · obtain ⟨i, hi, hst⟩ := hInv.queueRec did hold
      have hne : did ≠ downloadId digest url now := by
        intro he
        exact hnotq (he ▸ hold)
      refine ⟨i, ?_, hst⟩
      show storeFind (storeInsert s.active _ _) did = some i
      rw [storeFind_insert_ne _ _ hne]
      exact hi
    · have he := List.mem_singleton.mp hnew
      rw [he]
      exact ⟨_, storeFind_insert_self _ _ _, Or.inl rfl⟩
  · intro did hph
    obtain ⟨i, hi, hst⟩ := hInv.phaseRec did hph
    have hne : did ≠ downloadId digest url now := hnotph did hph
    refine ⟨i, ?_, hst⟩
    show storeFind (storeInsert s.active _ _) did = some i
    rw [storeFind_insert_ne _ _ hne]
    exact hi
  · intro i hi
    show (storeFind (storeInsert s.active _ _) i.id).isSome = true
    exact storeFind_insert_isSome _ _ _ (hInv.histRec i hi)
  · intro did
    show queueCount (s.dlQueue ++ [downloadId digest url now]) did
        + phaseCount s did + histCount s.history did ≤ 1
    rw [queueCount_append, queueCount_singleton]
    by_cases hdd : downloadId digest url now = did
    · have h1 : queueCount s.dlQueue did = 0 := by
        rw [← hdd]
        exact queueCount_eq_zero_of_not_mem hnotq
      have h2 : phaseCount s did = 0 := by
        unfold phaseCount
        cases hph : s.phase with
        | idle => rfl
        | working j =>
          have hj := hnotph j hph
          rw [← hdd]
          simp [hj]
      have h3 : histCount s.history did = 0 := by
        rw [← hdd]
        exact hnoth
      rw [if_pos hdd]
      omega
    · rw [if_neg hdd]
      have := hInv.counts did
      omega

theorem inv_pick {s : DLState} (hInv : Inv s) {did : String}
    {rest : List String} (hq : s.dlQueue = did :: rest)
    (hphase : s.phase = .idle) : Inv (workerPick s did rest) := by
  have hmemq : did ∈ s.dlQueue := by
    rw [hq]
    exact List.mem_cons_self _ _
  obtain ⟨i0, hfind, hst0⟩ := hInv.queueRec did hmemq
  have hcnt := hInv.counts did
  rw [hq] at hcnt
  have hc1 : queueCount (did :: rest) did = 1 + queueCount rest did := by
    show (if did = did then 1 else 0) + queueCount rest did
        = 1 + queueCount rest did
    rw [if_pos rfl]
  have hphc : phaseCount s did = 0 := by
    simp [phaseCount, hphase]
  have hrest0 : queueCount rest did = 0 := by omega
  have hh0 : histCount s.history did = 0 := by omega
  rw [workerPick_some rest hfind]
  refine ⟨?_, ?_, ?_, ?_, ?_⟩
  · show ∀ p ∈ storeUpdate s.active did markDownloading, p.2.id = p.1
    exact keyId_update (fun w => Or.inl rfl) hInv.keyId
  · intro did' hd'
    have hd'q : did' ∈ s.dlQueue := by
      rw [hq]
      exact List.mem_cons_of_mem _ hd'
    obtain ⟨i, hi, hsti⟩ := hInv.queueRec did' hd'q
    have hne : did' ≠ did := by
      intro he
      rw [he] at hd'
      have hpos : 0 < queueCount rest did := queueCount_pos_of_mem hd'
      omega
    refine ⟨i, ?_, hsti⟩
    show storeFind (storeUpdate s.active did markDownloading) did' = some i
    rw [storeFind_update_ne _ _ hne]
    exact hi
  · intro did' hph'
    have hph2 : WorkerPhase.working did = .working did' := hph'
    injection hph2 with hje
    subst hje
    refine ⟨markDownloading i0, ?_, Or.inl rfl⟩
    show storeFind (storeUpdate s.active did markDownloading) did
        = some (markDownloading i0)
    rw [storeFind_update_self, hfind]
    rfl
  · intro i hi
    show (storeFind (storeUpdate s.active did markDownloading) i.id).isSome
        = true
    rw [storeFind_update_isSome]
    exact hInv.histRec i hi
  · intro did'
    show queueCount rest did' + (if did = did' then 1 else 0)
        + histCount s.history did' ≤ 1
    by_cases hdd : did = did'
    · rw [if_pos hdd]
      subst hdd
      omega
    · rw [if_neg hdd]
      have hcnt' := hInv.counts did'
      rw [hq] at hcnt'
      have hq2 : queueCount (did :: rest) did' = queueCount rest did' := by
        show (if did = did' then 1 else 0) + queueCount rest did'
            = queueCount rest did'
        rw [if_neg hdd]
        omega
      omega

theorem inv_hook {s : DLState} (hInv : Inv s) (did : String) (d : HookEvent) :
    Inv (hookApply s did d) := by
  refine ⟨?_, ?_, ?_, ?_, ?_⟩
  · show ∀ p ∈ storeUpdate s.active did (fun j => progressHook j d),
        p.2.id = p.1
    exact keyId_update (fun w => Or.inl (progressHook_id w d)) hInv.keyId
  · intro did' hd'
    obtain ⟨i, hi, hsti⟩ := hInv.queueRec did' hd'
    by_cases hdd : did' = did
    · subst hdd
      refine ⟨progressHook i d, ?_, ?_⟩
      · show storeFind
            (storeUpdate s.active did' (fun j => progressHook j d)) did'
            = some (progressHook i d)
        rw [storeFind_update_self, hi]
        rfl
      · rw [progressHook_status]
        exact hsti
    · refine ⟨i, ?_, hsti⟩
      show storeFind (storeUpdate s.active did (fun j => progressHook j d)) did'
          = some i
      rw [storeFind_update_ne _ _ hdd]
      exact hi
  · intro did' hph'
    obtain ⟨i, hi, hsti⟩ := hInv.phaseRec did' hph'
    by_cases hdd : did' = did
    · subst hdd
      refine ⟨progressHook i d, ?_, ?_⟩
      · show storeFind
            (storeUpdate s.active did' (fun j => progressHook j d)) did'
            = some (progressHook i d)
        rw [storeFind_update_self, hi]
        rfl
      · rw [progressHook_status]
        exact hsti
    · refine ⟨i, ?_, hsti⟩
      show storeFind (storeUpdate s.active did (fun j => progressHook j d)) did'
          = some i
      rw [storeFind_update_ne _ _ hdd]
      exact hi
  · intro i hi
    show (storeFind
        (storeUpdate s.active did (fun j => progressHook j d)) i.id).isSome
        = true
    rw [storeFind_update_isSome]
    exact hInv.histRec i hi
  · intro did'
    show queueCount s.dlQueue did' + phaseCount s did'
        + histCount s.history did' ≤ 1
    exact hInv.counts did'

theorem inv_finish {s : DLState} (hInv : Inv s) {did : String}
    (res : BackendResult) (now : Nat) (hphase : s.phase = .working did) :
    Inv (finishDownload s did res now) := by
  obtain ⟨i0, hfind, hst0⟩ := hInv.phaseRec did hphase
  have hcnt := hInv.counts did
  have hph1 : phaseCount s did = 1 := by
    simp [phaseCount, hphase]
  have hq0 : queueCount s.dlQueue did = 0 := by omega
  have hh0 : histCount s.history did = 0 := by omega
  have hnotq : did ∉ s.dlQueue := by
    intro hm
    have := queueCount_pos_of_mem hm
    omega
  have hid0 : i0.id = did := hInv.keyId _ (storeFind_mem hfind)
  have herr : ∀ msg,
      Inv { s with active := storeUpdate s.active did (errorMut msg now)
                   phase := .idle } := by
    intro msg
    refine ⟨?_, ?_, ?_, ?_, ?_⟩
    · show ∀ p ∈ storeUpdate s.active did (errorMut msg now), p.2.id = p.1
      exact keyId_update (fun w => Or.inl rfl) hInv.keyId
    · intro did' hd'
      obtain ⟨i, hi, hsti⟩ := hInv.queueRec did' hd'
      have hne : did' ≠ did := by
        rintro rfl
        exact hnotq hd'
      refine ⟨i, ?_, hsti⟩
      show storeFind (storeUpdate s.active did (errorMut msg now)) did'
          = some i
      rw [storeFind_update_ne _ _ hne]
      exact hi
    · intro did' hph'
      have hph2 : WorkerPhase.idle = .working did' := hph'
      exact WorkerPhase.noConfusion hph2
    · intro i hi
      show (storeFind (storeUpdate s.active did (errorMut msg now)) i.id).isSome
          = true
      rw [storeFind_update_isSome]
      exact hInv.histRec i hi
    · intro did'
      show queueCount s.dlQueue did' + 0 + histCount s.history did' ≤ 1
      have := hInv.counts did'
      omega
  cases res with
  | failure msg =>
    rw [finishDownload_failure]
    exact herr msg
  | success files =>
    cases files with
    | nil =>
      rw [finishDownload_nil]
      exact herr _
    | cons pf rest' =>
      obtain ⟨path, size⟩ := pf
      by_cases hz : size = 0
      · subst hz
        rw [finishDownload_zero]
        exact herr _
      · rw [finishDownload_pos path rest' now hz hfind]
        refine ⟨?_, ?_, ?_, ?_, ?_⟩
        · show ∀ p ∈ storeUpdate s.active did
              (fun _ => completeMut path size now i0), p.2.id = p.1
          refine keyId_update (fun w => Or.inr ?_) hInv.keyId
          show (completeMut path size now i0).id = did
          exact hid0
        · intro did' hd'
          obtain ⟨i, hi, hsti⟩ := hInv.queueRec did' hd'
          have hne : did' ≠ did := by
            rintro rfl
            exact hnotq hd'
          refine ⟨i, ?_, hsti⟩
          show storeFind (storeUpdate s.active did
              (fun _ => completeMut path size now i0)) did' = some i
          rw [storeFind_update_ne _ _ hne]
          exact hi
        · intro did' hph'
          have hph2 : WorkerPhase.idle = .working did' := hph'
          exact WorkerPhase.noConfusion hph2
        · intro i hi
          rcases List.mem_append.mp hi with hold | hnew
          · show (storeFind (storeUpdate s.active did
                (fun _ => completeMut path size now i0)) i.id).isSome = true
            rw [storeFind_update_isSome]
            exact hInv.histRec i hold
          · rcases List.mem_singleton.mp hnew with rfl
            show (storeFind (storeUpdate s.active did
                (fun _ => completeMut path size now i0))
                (completeMut path size now i0).id).isSome = true
            have hcid : (completeMut path size now i0).id = did := hid0
            rw [hcid, storeFind_update_self, hfind]
            rfl
        · intro did'
          show queueCount s.dlQueue did' + 0
              + histCount (s.history ++ [completeMut path size now i0]) did'
              ≤ 1
          rw [histCount_append, histCount_singleton]
          have hcid : (completeMut path size now i0).id = did := hid0
          rw [hcid]
          have := hInv.counts did'
          by_cases hdd : did = did'
          · rw [if_pos hdd]
            subst hdd
            omega
          · rw [if_neg hdd]
            omega

theorem inv_cancel {s : DLState} (hInv : Inv s) (did : String) (now : Nat) :
    Inv (cancelDownload s did now).2 := by
  cases hfind : storeFind s.active did with
  | none =>
    rw [cancelDownload_unknown now hfind]
    exact hInv
  | some i =>
    by_cases hst : i.status = .queued ∨ i.status = .downloading
    · rw [cancelDownload_live now hfind hst]
      refine ⟨?_, ?_, ?_, ?_, ?_⟩
      · show ∀ p ∈ storeUpdate s.active did (cancelMut now), p.2.id = p.1
        exact keyId_update (fun w => Or.inl rfl) hInv.keyId
      · intro did' hd'
        obtain ⟨j, hj, hstj⟩ := hInv.queueRec did' hd'
        by_cases hdd : did' = did
        · subst hdd
          refine ⟨cancelMut now j, ?_, Or.inr rfl⟩
          show storeFind (storeUpdate s.active did' (cancelMut now)) did'
              = some (cancelMut now j)
          rw [storeFind_update_self, hj]
          rfl
        · refine ⟨j, ?_, hstj⟩
          show storeFind (storeUpdate s.active did (cancelMut now)) did'
              = some j
          rw [storeFind_update_ne _ _ hdd]
          exact hj
      · intro did' hph'
        obtain ⟨j, hj, hstj⟩ := hInv.phaseRec did' hph'
        by_cases hdd : did' = did
        · subst hdd
          refine ⟨cancelMut now j, ?_, Or.inr rfl⟩
          show storeFind (storeUpdate s.active did' (cancelMut now)) did'
              = some (cancelMut now j)
          rw [storeFind_update_self, hj]
          rfl
        · refine ⟨j, ?_, hstj⟩
          show storeFind (storeUpdate s.active did (cancelMut now)) did'
              = some j
          rw [storeFind_update_ne _ _ hdd]
          exact hj
      · intro j hj
        show (storeFind (storeUpdate s.active did (cancelMut now)) j.id).isSome
            = true
        rw [storeFind_update_isSome]
        exact hInv.histRec j hj
      · intro did'
        show queueCount s.dlQueue did' + phaseCount s did'
            + histCount s.history did' ≤ 1
        exact hInv.counts did'
    · rw [cancelDownload_terminal now hfind hst]
      exact hInv

theorem inv_step {digest : String → String} {s s' : DLState}
    (hInv : Inv s) (hstep : Step digest s s') : Inv s' := by
  cases hstep with
  | submit url q fmt ck cf now hfresh =>
    exact inv_submit digest hInv url q fmt ck cf now hfresh
  | pick did rest hq hphase => exact inv_pick hInv hq hphase
  | hook did d hphase => exact inv_hook hInv did d
  | finish did res now hphase => exact inv_finish hInv res now hphase
  | cancel did now => exact inv_cancel hInv did now

theorem reachable_inv {digest : String → String} {s : DLState}
    (h : Reachable digest s) : Inv s := by
  induction h with
  | init => exact inv_init
  | step hr hstep ih => exact inv_step ih hstep

/-! ### The status transitions the code can actually perform

`statusEdge a b` holds when one atomic step may move a record's status
from `a` to `b`: the documented edges plus the edges out of `cancelled`
that exist because the worker never re-checks the status (a cancelled
queued job is picked and marked `downloading`; a cancelled running job
is overwritten with `completed`/`error` when the backend returns). -/

def statusEdge : Status → Status → Bool
  | .queued, .downloading => true
  | .queued, .cancelled => true
  | .downloading, .completed => true
  | .downloading, .error => true
  | .downloading, .cancelled => true
  | .cancelled, .downloading => true
  | .cancelled, .completed => true
  | .cancelled, .error => true
  | a, b => a == b

theorem statusEdge_refl (a : Status) : statusEdge a a = true := by
  cases a <;> rfl

theorem statusEdge_of_terminal {a b : Status}
    (he : statusEdge a b = true)
    (ha : a = .completed ∨ a = .error) : b = a := by
  rcases ha with rfl | rfl <;> cases b <;>
    first
      | rfl
      | exact absurd he (by decide)

/-- Extra shape lemma: the success branch of `_process_download` when
the record has vanished (cannot happen in a reachable state, but the
function is total). -/
theorem finishDownload_pos_missing {s : DLState} {did : String}
    (path : String) {size : Nat} (rest' : List (String × Nat)) (now : Nat)
    (hz : ¬ size = 0) (h : storeFind s.active did = none) :
    finishDownload s did (.success ((path, size) :: rest')) now
      = { s with phase := .idle } := by
  unfold finishDownload
  dsimp only
  rw [if_neg hz, h]

/-! ### Concrete executions used as witnesses and counterexamples -/

/-- A concrete stand-in for the opaque md5 hex digest. -/
def exDigest : String → String := fun s => s

/-- The id `start_download` assigns to url `"u"` at clock reading 0. -/
def exId : String := (startDownload exDigest initState "u" "best" "mp4" none none 0).1

/-- State after one submission of url `"u"` at time 0. -/
def exS1 : DLState := (startDownload exDigest initState "u" "best" "mp4" none none 0).2

/-- … then the job is cancelled while still queued. -/
def exS2 : DLState := (cancelDownload exS1 exId 1).2

/-- … and the worker nonetheless picks it up. -/
def exS3 : DLState := workerPick exS2 exId []

/-- Alternative continuation of `exS1`: the worker picks the job first
(no cancellation yet). -/
def exT2 : DLState := workerPick exS1 exId []

/-- … the job is cancelled while the backend call is in flight. -/
def exT3 : DLState := (cancelDownload exT2 exId 1).2

/-- … and the backend then returns a successful 5-byte artifact. -/
def exT4 : DLState := finishDownload exT3 exId (.success [("f.mp4", 5)]) 2

/-- … or instead the backend raises after the cancellation. -/
def exT4e : DLState := finishDownload exT3 exId (.failure "boom") 2

/-- Continuation of `exT2` without any cancellation: the backend
raises, the job ends in status `'error'`. -/
def exE : DLState := finishDownload exT2 exId (.failure "boom") 1

theorem exReach1 : Reachable exDigest exS1 :=
  Reachable.step Reachable.init
    (Step.submit initState "u" "best" "mp4" none none 0 rfl :
      Step exDigest initState exS1)

theorem exReach2 : Reachable exDigest exS2 :=
  Reachable.step exReach1
    (Step.cancel exS1 exId 1 : Step exDigest exS1 exS2)

theorem exStep23 : Step exDigest exS2 exS3 :=
  Step.pick exS2 exId [] (by decide) (by decide)

theorem exReach3 : Reachable exDigest exS3 :=
  Reachable.step exReach2 exStep23

theorem exStep1T2 : Step exDigest exS1 exT2 :=
  Step.pick exS1 exId [] (by decide) (by decide)

theorem exReachT2 : Reachable exDigest exT2 :=
  Reachable.step exReach1 exStep1T2

theorem exReachT3 : Reachable exDigest exT3 :=
  Reachable.step exReachT2
    (Step.cancel exT2 exId 1 : Step exDigest exT2 exT3)

theorem exReachT4 : Reachable exDigest exT4 :=
  Reachable.step exReachT3
    (Step.finish exT3 exId (.success [("f.mp4", 5)]) 2 (by decide) :
      Step exDigest exT3 exT4)

theorem exReachE : Reachable exDigest exE :=
  Reachable.step exReachT2
    (Step.finish exT2 exId (.failure "boom") 1 (by decide) :
      Step exDigest exT2 exE)

/-! ### Claim C1: cancellation of a running job -/

/-- C1, as stated, is false on the code: in a real execution (`exT2` is
reachable) the job is `'downloading'`, `cancel_download` returns `True`
and records `'cancelled'`, yet when the backend call returns success
the worker overwrites the final status with `'completed'`. -/
theorem C1_counterexample :
    Reachable exDigest exT2 ∧
    (storeFind exT2.active exId).map DownloadInfo.status
      = some .downloading ∧
    (cancelDownload exT2 exId 1).1 = true ∧
    (storeFind exT3.active exId).map DownloadInfo.status = some .cancelled ∧
    (storeFind exT4.active exId).map DownloadInfo.status = some .completed :=
  ⟨exReachT2, by decide, by decide, by decide, by decide⟩

/-- C1 amended: cancelling a `'downloading'` job returns `True` and
records `'cancelled'` at that instant, but the worker that owns the job
never re-checks the status: when the backend invocation returns, it
unconditionally overwrites the record — a successful backend result
makes the final status `'completed'`, a failure makes it `'error'`.
Cancellation does not dominate. -/
theorem C1_overwrite (s : DLState) (did : String) (now later : Nat)
    (i : DownloadInfo) (path : String) (size : Nat)
    (hfind : storeFind s.active did = some i)
    (hst : i.status = .downloading) (hsz : ¬ size = 0) :
    (cancelDownload s did now).1 = true ∧
    (storeFind ((cancelDownload s did now).2).active did).map
        DownloadInfo.status = some .cancelled ∧
    (storeFind (finishDownload ((cancelDownload s did now).2) did
        (.success [(path, size)]) later).active did).map DownloadInfo.status
      = some .completed ∧
    (∀ msg,
      (storeFind (finishDownload ((cancelDownload s did now).2) did
          (.failure msg) later).active did).map DownloadInfo.status
        = some .error) := by
  have hlive : i.status = .queued ∨ i.status = .downloading := Or.inr hst
  have hcl := cancelDownload_live now hfind hlive
  have hfind2 : storeFind ((cancelDownload s did now).2).active did
      = some (cancelMut now i) := by
    rw [hcl]
    show storeFind (storeUpdate s.active did (cancelMut now)) did = _
    rw [storeFind_update_self, hfind]
    rfl
  refine ⟨by rw [hcl], by rw [hfind2]; rfl, ?_, ?_⟩
  · rw [finishDownload_pos path [] later hsz hfind2]
    show (storeFind (storeUpdate ((cancelDownload s did now).2).active did
        (fun _ => completeMut path size later (cancelMut now i))) did).map
        DownloadInfo.status = some .completed
    rw [storeFind_update_self, hfind2]
    rfl
  · intro msg
    rw [finishDownload_failure]
    show (storeFind (storeUpdate ((cancelDownload s did now).2).active did
        (errorMut msg later)) did).map DownloadInfo.status = some .error
    rw [storeFind_update_self, hfind2]
    rfl

/-- Witness for `C1_overwrite` at the concrete trace. -/
theorem C1_overwrite_witness :
    (cancelDownload exT2 exId 1).1 = true ∧
    (storeFind exT3.active exId).map DownloadInfo.status = some .cancelled ∧
    (storeFind exT4.active exId).map DownloadInfo.status = some .completed ∧
    (storeFind exT4e.active exId).map DownloadInfo.status = some .error :=
  have h := C1_overwrite exT2 exId 1 2
    (markDownloading (newInfo exId "u" "best" "mp4" none none 0))
    "f.mp4" 5 (by decide) (by decide) (by decide)
  ⟨h.1, h.2.1, h.2.2.1, h.2.2.2 "boom"⟩

/-! ### Claim C2: cancellation of a still-queued job -/

/-- C2, as stated, is false on the code: in a real execution the job is
cancelled while still queued, yet the dequeuing worker does not discard
it — `_process_download` reaches the backend call (its only guard, the
record lookup, succeeds) and overwrites the status to `'downloading'`. -/
theorem C2_counterexample :
    Reachable exDigest exS2 ∧
    (cancelDownload exS1 exId 1).1 = true ∧
    (storeFind exS2.active exId).map DownloadInfo.status = some .cancelled ∧
    willInvokeBackend exS2 exId = true ∧
    (storeFind exS3.active exId).map DownloadInfo.status
      = some .downloading :=
  ⟨exReach2, by decide, by decide, by decide, by decide⟩

/-- C2 amended: a job marked `'cancelled'` while queued is not skipped.
The worker checks only that the record exists, so it proceeds to invoke
the backend for the job and overwrites the record's status to
`'downloading'` — the `'cancelled'` status does not survive the
dequeue. -/
theorem C2_not_skipped (s : DLState) (did : String) (rest : List String)
    (i : DownloadInfo) (hfind : storeFind s.active did = some i)
    (hst : i.status = .cancelled) :
    willInvokeBackend s did = true ∧
    (storeFind (workerPick s did rest).active did).map DownloadInfo.status
      = some .downloading := by
  constructor
  · unfold willInvokeBackend
    rw [hfind]
    rfl
  · rw [workerPick_some rest hfind]
    show (storeFind (storeUpdate s.active did markDownloading) did).map
        DownloadInfo.status = some .downloading
    rw [storeFind_update_self, hfind]
    rfl

/-- Witness for `C2_not_skipped` at the concrete trace. -/
theorem C2_not_skipped_witness :
    willInvokeBackend exS2 exId = true ∧
    (storeFind exS3.active exId).map DownloadInfo.status
      = some .downloading :=
  C2_not_skipped exS2 exId []
    (cancelMut 1 (newInfo exId "u" "best" "mp4" none none 0))
    (by decide) (by decide)

/-! ### Claim C3: domain validation at submission -/

/-- C3, as stated, is false on the code: `_validate_url` rejects
`https://example.com/watch`, yet `start_download` (which never calls
`_validate_url`) still creates a queued record, enqueues the id and
returns it to the caller. -/
theorem C3_counterexample :
    validateUrl "https://example.com/watch" = false ∧
    (startDownload exDigest initState "https://example.com/watch" "best"
        "mp4" none none 0).1 = "https://exam" ∧
    (storeFind ((startDownload exDigest initState "https://example.com/watch"
        "best" "mp4" none none 0).2).active "https://exam").map
        DownloadInfo.status = some .queued ∧
    ((startDownload exDigest initState "https://example.com/watch" "best"
        "mp4" none none 0).2).dlQueue = ["https://exam"] :=
  ⟨by decide, by decide, by decide, by decide⟩

/-- C3 amended: `start_download` performs no URL validation at all.
Even for a URL that `_validate_url` rejects, submission synchronously
creates a `'queued'` record, inserts it into the store, enqueues its id
and returns the id to the caller.  (`_validate_url` is only invoked by
`get_video_info`.) -/
theorem C3_no_validation (digest : String → String) (s : DLState)
    (url q fmt : String) (ck cf : Option String) (now : Nat)
    (hbad : validateUrl url = false) :
    (startDownload digest s url q fmt ck cf now).1
      = downloadId digest url now ∧
    storeFind ((startDownload digest s url q fmt ck cf now).2).active
        (downloadId digest url now)
      = some (newInfo (downloadId digest url now) url q fmt ck cf now) ∧
    (newInfo (downloadId digest url now) url q fmt ck cf now).status
      = .queued ∧
    ((startDownload digest s url q fmt ck cf now).2).dlQueue
      = s.dlQueue ++ [downloadId digest url now] := by
  refine ⟨by dsimp only [startDownload], ?_, rfl, rfl⟩
  show storeFind (storeInsert s.active (downloadId digest url now)
      (newInfo (downloadId digest url now) url q fmt ck cf now))
      (downloadId digest url now)
    = some (newInfo (downloadId digest url now) url q fmt ck cf now)
  exact storeFind_insert_self _ _ _

/-- Witness for `C3_no_validation` at a concrete invalid URL. -/
theorem C3_no_validation_witness :
    (startDownload exDigest initState "https://example.com/watch" "best"
        "mp4" none none 0).1
      = downloadId exDigest "https://example.com/watch" 0 ∧
    storeFind ((startDownload exDigest initState "https://example.com/watch"
        "best" "mp4" none none 0).2).active
        (downloadId exDigest "https://example.com/watch" 0)
      = some (newInfo (downloadId exDigest "https://example.com/watch" 0)
          "https://example.com/watch" "best" "mp4" none none 0) ∧
    (newInfo (downloadId exDigest "https://example.com/watch" 0)
        "https://example.com/watch" "best" "mp4" none none 0).status
      = .queued ∧
    ((startDownload exDigest initState "https://example.com/watch" "best"
        "mp4" none none 0).2).dlQueue
      = initState.dlQueue ++ [downloadId exDigest "https://example.com/watch" 0] :=
  C3_no_validation exDigest initState "https://example.com/watch" "best"
    "mp4" none none 0 (by decide)

/-! ### Claim C4: the history ledger -/

/-- C4, as stated, is false on the code: in a real execution a job
reaches the terminal status `'error'`, yet the history ledger stays
empty — only the success path of `_process_download` appends to
`download_history`. -/
theorem C4_counterexample :
    Reachable exDigest exE ∧
    (storeFind exE.active exId).map DownloadInfo.status = some .error ∧
    exE.history = [] :=
  ⟨exReachE, by decide, by decide⟩

/-- C4 amended: only jobs that complete successfully are snapshotted
into the history ledger, exactly one snapshot per completion; jobs
ending in `'error'` or `'cancelled'` are never appended; and no id ever
occurs twice in the ledger of a reachable state. -/
theorem C4_history (s : DLState) :
    (∀ (did msg : String) (now : Nat),
      (finishDownload s did (.failure msg) now).history = s.history) ∧
    (∀ (did : String) (now : Nat),
      ((cancelDownload s did now).2).history = s.history) ∧
    (∀ (did path : String) (size : Nat) (rest' : List (String × Nat))
        (now : Nat) (i : DownloadInfo), ¬ size = 0 →
      storeFind s.active did = some i →
      (finishDownload s did (.success ((path, size) :: rest')) now).history
        = s.history ++ [completeMut path size now i]) ∧
    (∀ (digest : String → String), Reachable digest s →
      ∀ did, histCount s.history did ≤ 1) := by
  refine ⟨fun did msg now => rfl, ?_, ?_, ?_⟩
  · intro did now
    cases hfind : storeFind s.active did with
    | none => rw [cancelDownload_unknown now hfind]
    | some i =>
      by_cases hst : i.status = .queued ∨ i.status = .downloading
      · rw [cancelDownload_live now hfind hst]
      · rw [cancelDownload_terminal now hfind hst]
  · intro did path size rest' now i hz hfind
    rw [finishDownload_pos path rest' now hz hfind]
  · intro digest hr did
    have := (reachable_inv hr).counts did
    omega

/-- Witness for `C4_history` at concrete executions. -/
theorem C4_history_witness :
    (finishDownload exT2 exId (.failure "boom") 1).history = exT2.history ∧
    ((cancelDownload exT2 exId 1).2).history = exT2.history ∧
    histCount exE.history exId ≤ 1 :=
  ⟨(C4_history exT2).1 exId "boom" 1,
   (C4_history exT2).2.1 exId 1,
   (C4_history exE).2.2.2 exDigest exReachE exId⟩

/-! ### Claim C5: the status transition relation -/

/-- C5, as stated, is false on the code: `'cancelled'` is not
irreversible.  In a real execution a record whose status is the
terminal `'cancelled'` is moved back to `'downloading'` by the very
next worker step. -/
theorem C5_counterexample :
    Reachable exDigest exS2 ∧
    Step exDigest exS2 exS3 ∧
    (storeFind exS2.active exId).map DownloadInfo.status = some .cancelled ∧
    (storeFind exS3.active exId).map DownloadInfo.status
      = some .downloading :=
  ⟨exReach2, exStep23, by decide, by decide⟩

/-- C5 amended: across any step of a real execution, a stored record's
status moves only along `statusEdge`: the documented edges
`queued → downloading → {completed, error}` and
`{queued, downloading} → cancelled`, plus the edges out of `cancelled`
(`cancelled → downloading` on dequeue and
`cancelled → {completed, error}` on backend return) that exist because
the worker never re-checks the status.  `completed` and `error`, once
entered, are never left; `cancelled` is not irreversible. -/
theorem C5_transitions {digest : String → String} {s s' : DLState}
    (hr : Reachable digest s) (hstep : Step digest s s') (did : String)
    (i i' : DownloadInfo) (hi : storeFind s.active did = some i)
    (hi' : storeFind s'.active did = some i') :
    statusEdge i.status i'.status = true ∧
    ((i.status = .completed ∨ i.status = .error) → i'.status = i.status) := by
  have hInv := reachable_inv hr
  have hmain : statusEdge i.status i'.status = true := by
    cases hstep with
    | submit url q fmt ck cf now hfresh =>
      have hi2 : storeFind (storeInsert s.active (downloadId digest url now)
          (newInfo (downloadId digest url now) url q fmt ck cf now)) did
          = some i' := hi'
      by_cases hdd : did = downloadId digest url now
      · rw [hdd, hfresh] at hi
        cases hi
      · rw [storeFind_insert_ne _ _ hdd, hi] at hi2
        cases hi2
        exact statusEdge_refl _
    | pick did0 rest hq hphase =>
      cases hfind0 : storeFind s.active did0 with
      | none =>
        rw [workerPick_none rest hfind0] at hi'
        have hi2 : storeFind s.active did = some i' := hi'
        rw [hi] at hi2
        cases hi2
        exact statusEdge_refl _
      | some j =>
        rw [workerPick_some rest hfind0] at hi'
        have hi2 : storeFind (storeUpdate s.active did0 markDownloading) did
            = some i' := hi'
        by_cases hdd : did = did0
        · subst hdd
          rw [storeFind_update_self, hfind0, Option.map_some'] at hi2
          cases hi2
          have hij : i = j := by
            rw [hi] at hfind0
            exact Option.some.inj hfind0
          have hmem : did ∈ s.dlQueue := by
            rw [hq]
            exact List.mem_cons_self _ _
          obtain ⟨k, hk, hstk⟩ := hInv.queueRec did hmem
          have hik : i = k := by
            rw [hi] at hk
            exact Option.some.inj hk
          rcases hstk with h1 | h1 <;> (rw [← hik] at h1; rw [h1]; rfl)
        · rw [storeFind_update_ne _ _ hdd, hi] at hi2
          cases hi2
          exact statusEdge_refl _
    | hook did0 d hphase =>
      have hi2 : storeFind (storeUpdate s.active did0
          (fun j => progressHook j d)) did = some i' := hi'
      by_cases hdd : did = did0
      · subst hdd
        rw [storeFind_update_self, hi, Option.map_some'] at hi2
        cases hi2
        rw [progressHook_status]
        exact statusEdge_refl _
      · rw [storeFind_update_ne _ _ hdd, hi] at hi2
        cases hi2
        exact statusEdge_refl _
    | finish did0 res now hphase =>
      obtain ⟨j0, hj0, hstj0⟩ := hInv.phaseRec did0 hphase
      by_cases hdd : did = did0
      · subst hdd
        have hij : i = j0 := by
          rw [hi] at hj0
          exact Option.some.inj hj0
        cases res with
        | failure msg =>
          rw [finishDownload_failure] at hi'
          have hi2 : storeFind (storeUpdate s.active did (errorMut msg now))
              did = some i' := hi'
          rw [storeFind_update_self, hi, Option.map_some'] at hi2
          cases hi2
          rcases hstj0 with h1 | h1 <;> (rw [← hij] at h1; rw [h1]; rfl)
        | success files =>
          cases files with
          | nil =>
            rw [finishDownload_nil] at hi'
            have hi2 : storeFind (storeUpdate s.active did
                (errorMut "No file was downloaded" now)) did = some i' := hi'
            rw [storeFind_update_self, hi, Option.map_some'] at hi2
            cases hi2
            rcases hstj0 with h1 | h1 <;> (rw [← hij] at h1; rw [h1]; rfl)
          | cons pf rest' =>
            obtain ⟨path, size⟩ := pf
            by_cases hz : size = 0
            · subst hz
              rw [finishDownload_zero] at hi'
              have hi2 : storeFind (storeUpdate s.active did
                  (errorMut "Downloaded file is empty" now)) did
                  = some i' := hi'
              rw [storeFind_update_self, hi, Option.map_some'] at hi2
              cases hi2
              rcases hstj0 with h1 | h1 <;> (rw [← hij] at h1; rw [h1]; rfl)
            · rw [finishDownload_pos path rest' now hz hi] at hi'
              have hi2 : storeFind (storeUpdate s.active did
                  (fun _ => completeMut path size now i)) did = some i' := hi'
              rw [storeFind_update_self, hi, Option.map_some'] at hi2
              cases hi2
              rcases hstj0 with h1 | h1 <;> (rw [← hij] at h1; rw [h1]; rfl)
      · cases res with
        | failure msg =>
          rw [finishDownload_failure] at hi'
          have hi2 : storeFind (storeUpdate s.active did0 (errorMut msg now))
              did = some i' := hi'
          rw [storeFind_update_ne _ _ hdd, hi] at hi2
          cases hi2
          exact statusEdge_refl _
        | success files =>
          cases files with
          | nil =>
            rw [finishDownload_nil] at hi'
            have hi2 : storeFind (storeUpdate s.active did0
                (errorMut "No file was downloaded" now)) did = some i' := hi'
            rw [storeFind_update_ne _ _ hdd, hi] at hi2
            cases hi2
            exact statusEdge_refl _
          | cons pf rest' =>
            obtain ⟨path, size⟩ := pf
            by_cases hz : size = 0
            · subst hz
              rw [finishDownload_zero] at hi'
              have hi2 : storeFind (storeUpdate s.active did0
                  (errorMut "Downloaded file is empty" now)) did
                  = some i' := hi'
              rw [storeFind_update_ne _ _ hdd, hi] at hi2
              cases hi2
              exact statusEdge_refl _
            · cases hfind0 : storeFind s.active did0 with
              | none =>
                rw [finishDownload_pos_missing path rest' now hz hfind0] at hi'
                have hi2 : storeFind s.active did = some i' := hi'
                rw [hi] at hi2
                cases hi2
                exact statusEdge_refl _
              | some j =>
                rw [finishDownload_pos path rest' now hz hfind0] at hi'
                have hi2 : storeFind (storeUpdate s.active did0
                    (fun _ => completeMut path size now j)) did
                    = some i' := hi'
                rw [storeFind_update_ne _ _ hdd, hi] at hi2
                cases hi2
                exact statusEdge_refl _
    | cancel did0 now =>
      cases hfind0 : storeFind s.active did0 with
      | none =>
        rw [cancelDownload_unknown now hfind0] at hi'
        have hi2 : storeFind s.active did = some i' := hi'
        rw [hi] at hi2
        cases hi2
        exact statusEdge_refl _
      | some j =>
        by_cases hstj : j.status = .queued ∨ j.status = .downloading
        · rw [cancelDownload_live now hfind0 hstj] at hi'
          have hi2 : storeFind (storeUpdate s.active did0 (cancelMut now)) did
              = some i' := hi'
          by_cases hdd : did = did0
          · subst hdd
            rw [storeFind_update_self, hfind0, Option.map_some'] at hi2
            cases hi2
            have hij : i = j := by
              rw [hi] at hfind0
              exact Option.some.inj hfind0
            rcases hstj with h1 | h1 <;> (rw [← hij] at h1; rw [h1]; rfl)
          · rw [storeFind_update_ne _ _ hdd, hi] at hi2
            cases hi2
            exact statusEdge_refl _
        · rw [cancelDownload_terminal now hfind0 hstj] at hi'
          have hi2 : storeFind s.active did = some i' := hi'
          rw [hi] at hi2
          cases hi2
          exact statusEdge_refl _
  exact ⟨hmain, fun hterm => statusEdge_of_terminal hmain hterm⟩

/-- Witness for `C5_transitions` at the concrete dequeue step. -/
theorem C5_transitions_witness :
    statusEdge (newInfo exId "u" "best" "mp4" none none 0).status
      (markDownloading (newInfo exId "u" "best" "mp4" none none 0)).status
      = true :=
  (C5_transitions exReach1 exStep1T2 exId
    (newInfo exId "u" "best" "mp4" none none 0)
    (markDownloading (newInfo exId "u" "best" "mp4" none none 0))
    (by decide) (by decide)).1

/-! ### Claim C6: the progress bridge -/

/-- A record mid-download at 37 percent. -/
def exInfo37 : DownloadInfo :=
  { id := "a", url := "u", quality := "best", formatType := "mp4"
    cookies := none, customFilename := none, status := .downloading
    progress := 37, startTime := 0, errorMsg := none, filePath := none
    fileSize := 0, endTime := none }

/-- A terminal `'finished'` progress event. -/
def exEvtFin : HookEvent :=
  { hkStatus := .finished, downloadedBytes := 0, totalBytes := none
    totalBytesEstimate := none }

/-- A byte-count event with an exact total. -/
def exEvtTotal : HookEvent :=
  { hkStatus := .downloading, downloadedBytes := 50, totalBytes := some 200
    totalBytesEstimate := none }

/-- A byte-count event with only an estimated total. -/
def exEvtEst : HookEvent :=
  { hkStatus := .downloading, downloadedBytes := 199, totalBytes := none
    totalBytesEstimate := some 200 }

/-- C6, as stated, is false on the code: the backend's `'finished'`
signal is not a no-op on the record — the hook itself sets `progress`
to exactly 100 (from 37 here), without any worker completion
transition. -/
theorem C6_counterexample :
    exInfo37.progress = 37 ∧
    (progressHook exInfo37 exEvtFin).progress = 100 ∧
    (progressHook exInfo37 exEvtFin).status = .downloading :=
  ⟨by decide, by decide, by decide⟩

/-- C6 amended: while a job is running, a progress event carrying a
nonzero exact total (or, failing that, a nonzero estimated total) sets
the record's progress to `min(100·transferred/total, 99)`, and the hook
never changes the status; but the `'finished'` signal is not a no-op:
the hook itself sets progress to exactly 100, so the worker's
completion transition is not the only writer of 100. -/
theorem C6_hook (i : DownloadInfo) (d : HookEvent) :
    (progressHook i d).status = i.status ∧
    (∀ t : Nat, d.hkStatus = .downloading → d.totalBytes = some t →
      ¬ t = 0 →
      (progressHook i d).progress
        = min ((d.downloadedBytes : ℚ) / (t : ℚ) * 100) 99) ∧
    (∀ t : Nat, d.hkStatus = .downloading → d.totalBytes = none →
      d.totalBytesEstimate = some t → ¬ t = 0 →
      (progressHook i d).progress
        = min ((d.downloadedBytes : ℚ) / (t : ℚ) * 100) 99) ∧
    (d.hkStatus = .finished → (progressHook i d).progress = 100) := by
  refine ⟨progressHook_status i d, ?_, ?_, ?_⟩
  · intro t h1 h2 h3
    rcases d with ⟨st, db, tb, tbe⟩
    dsimp only at h1 h2 ⊢
    subst h1
    subst h2
    unfold progressHook
    dsimp only
    rw [if_pos h3]
    rfl
  · intro t h1 h2 h3 h4
    rcases d with ⟨st, db, tb, tbe⟩
    dsimp only at h1 h2 h3 ⊢
    subst h1
    subst h2
    subst h3
    unfold progressHook
    dsimp only
    rw [if_pos h4]
    rfl
  · intro h1
    rcases d with ⟨st, db, tb, tbe⟩
    dsimp only at h1 ⊢
    subst h1
    rfl

/-- Witness for `C6_hook` at concrete events: 50/200 gives 25 percent,
199/200 is capped at 99, the status is untouched, and `'finished'`
writes 100. -/
theorem C6_hook_witness :
    (progressHook exInfo37 exEvtTotal).status = exInfo37.status ∧
    (progressHook exInfo37 exEvtTotal).progress
      = min ((50 : ℚ) / (200 : ℚ) * 100) 99 ∧
    (progressHook exInfo37 exEvtEst).progress
      = min ((199 : ℚ) / (200 : ℚ) * 100) 99 ∧
    (progressHook exInfo37 exEvtFin).progress = 100 :=
  ⟨(C6_hook exInfo37 exEvtTotal).1,
   (C6_hook exInfo37 exEvtTotal).2.1 200 rfl rfl (by decide),
   (C6_hook exInfo37 exEvtEst).2.2.1 200 rfl rfl rfl (by decide),
   (C6_hook exInfo37 exEvtFin).2.2.2 rfl⟩

/-! ### Claim C7: history retrieval -/

/-- A state whose ledger holds one entry. -/
def exHist1 : DLState := { initState with history := [exInfo37] }

/-- C7, as stated, is false on the code at `limit = 0` (a non-negative
integer): Python's `history[-0:]` is the whole list, so the call
returns one entry, more than the limit. -/
theorem C7_counterexample :
    (getDownloadHistory exHist1 0).length = 1 ∧
    ¬ (getDownloadHistory exHist1 0).length ≤ 0 :=
  ⟨by decide, by decide⟩

/-- C7 amended: for every positive `limit`, `get_download_history`
returns the suffix of the ledger of length `min limit length` in append
order (the dropped prefix concatenated with the result re-forms the
ledger); the default limit is 50.  For `limit = 0` the slice
`[-limit:]` degenerates to the whole ledger. -/
theorem C7_history_suffix (s : DLState) (limit : Nat) :
    (0 < limit →
      (getDownloadHistory s limit).length = min limit s.history.length ∧
      List.take (s.history.length - limit) s.history
          ++ getDownloadHistory s limit = s.history) ∧
    getDownloadHistory s 0 = s.history ∧
    defaultHistoryLimit = 50 := by
  refine ⟨?_, ?_, rfl⟩
  · intro hpos
    have hne : ¬ (limit = 0) := by omega
    unfold getDownloadHistory
    rw [if_neg hne]
    constructor
    · rw [List.length_drop]
      omega
    · exact List.take_append_drop _ _
  · unfold getDownloadHistory
    rw [if_pos rfl]

/-- Witness for `C7_history_suffix` at the concrete one-entry ledger. -/
theorem C7_history_suffix_witness :
    (getDownloadHistory exHist1 2).length = min 2 exHist1.history.length ∧
    List.take (exHist1.history.length - 2) exHist1.history
        ++ getDownloadHistory exHist1 2 = exHist1.history ∧
    getDownloadHistory exHist1 0 = exHist1.history ∧
    defaultHistoryLimit = 50 :=
  ⟨((C7_history_suffix exHist1 2).1 (by decide)).1,
   ((C7_history_suffix exHist1 2).1 (by decide)).2,
   (C7_history_suffix exHist1 0).2.1,
   (C7_history_suffix exHist1 0).2.2⟩

/-! ### Claim C8: id uniqueness -/

/-- C8, as stated, is false on the code: two distinct submissions (the
second uses quality `"720p"`) with the same URL at the same clock
reading are assigned the same id, and the second silently replaces the
first's record — the store still holds a single record, now the 720p
one, and the id sits in the queue twice. -/
theorem C8_counterexample :
    (startDownload exDigest initState "u" "best" "mp4" none none 0).1
      = (startDownload exDigest exS1 "u" "720p" "mp4" none none 0).1 ∧
    ((startDownload exDigest exS1 "u" "720p" "mp4" none none 0).2).active.length
      = 1 ∧
    storeFind ((startDownload exDigest exS1 "u" "720p" "mp4" none none
        0).2).active exId
      = some (newInfo exId "u" "720p" "mp4" none none 0) ∧
    ((startDownload exDigest exS1 "u" "720p" "mp4" none none 0).2).dlQueue
      = [exId, exId] :=
  ⟨by decide, by decide, by decide, by decide⟩

/-- C8 amended: the id is the truncated digest of the URL and the
submission clock reading, nothing more.  A submission whose id differs
from an existing record's id leaves that record untouched; but a
submission whose id collides with an existing record's id (as happens
for the same URL at the same clock reading) silently overwrites that
record in the store — lifetime uniqueness is not guaranteed. -/
theorem C8_id_collision (digest : String → String) (s : DLState)
    (url q fmt : String) (ck cf : Option String) (now : Nat)
    (did0 : String) (i0 : DownloadInfo)
    (hfound : storeFind s.active did0 = some i0) :
    (¬ downloadId digest url now = did0 →
      storeFind ((startDownload digest s url q fmt ck cf now).2).active did0
        = some i0) ∧
    (downloadId digest url now = did0 →
      storeFind ((startDownload digest s url q fmt ck cf now).2).active did0
        = some (newInfo did0 url q fmt ck cf now)) := by
  constructor
  · intro hne
    show storeFind (storeInsert s.active (downloadId digest url now)
        (newInfo (downloadId digest url now) url q fmt ck cf now)) did0
      = some i0
    rw [storeFind_insert_ne _ _ (fun h => hne h.symm)]
    exact hfound
  · intro heq
    show storeFind (storeInsert s.active (downloadId digest url now)
        (newInfo (downloadId digest url now) url q fmt ck cf now)) did0
      = some (newInfo did0 url q fmt ck cf now)
    rw [heq]
    exact storeFind_insert_self _ _ _

/-- Witness for `C8_id_collision`: a submission of url `"v"` keeps the
record of `exId` intact, while a second submission of url `"u"` at the
same clock reading replaces it. -/
theorem C8_id_collision_witness :
    storeFind ((startDownload exDigest exS1 "v" "best" "mp4" none none
        0).2).active exId
      = some (newInfo exId "u" "best" "mp4" none none 0) ∧
    storeFind ((startDownload exDigest exS1 "u" "720p" "mp4" none none
        0).2).active exId
      = some (newInfo exId "u" "720p" "mp4" none none 0) :=
  ⟨(C8_id_collision exDigest exS1 "v" "best" "mp4" none none 0 exId
      (newInfo exId "u" "best" "mp4" none none 0) (by decide)).1 (by decide),
   (C8_id_collision exDigest exS1 "u" "720p" "mp4" none none 0 exId
      (newInfo exId "u" "best" "mp4" none none 0) (by decide)).2 (by decide)⟩

/-! ### Claim C9: the retention sweeper -/

theorem sweepFold_filter (cutoff : Nat) (hist : List DownloadInfo) :
    ∀ fs : List String, fs.Nodup →
      hist.foldl (sweepStep cutoff) fs
        = fs.filter (fun p => !((sweepTargets hist cutoff).contains p)) := by
  induction hist with
  | nil =>
    intro fs hnd
    rw [List.foldl_nil]
    symm
    rw [List.filter_eq_self]
    intro a ha
    rfl
  | cons i rest ih =>
    intro fs hnd
    rw [List.foldl_cons]
    cases htg : sweepTarget cutoff i with
    | none =>
      have hstep : sweepStep cutoff fs i = fs := by
        unfold sweepStep
        unfold sweepTarget at htg
        cases het : i.endTime with
        | none => rfl
        | some e =>
          rw [het] at htg
          dsimp only at htg
          dsimp only
          by_cases hec : e < cutoff
          · rw [if_pos hec] at htg
            rw [if_pos hec, htg]
          · rw [if_neg hec]
      have htgt : sweepTargets (i :: rest) cutoff
          = sweepTargets rest cutoff := by
        unfold sweepTargets
        exact List.filterMap_cons_none htg
      rw [hstep, htgt]
      exact ih fs hnd
    | some p =>
      have hstep : sweepStep cutoff fs i = fs.filter (fun x => x != p) := by
        unfold sweepStep
        unfold sweepTarget at htg
        cases het : i.endTime with
        | none =>
          rw [het] at htg
          dsimp only at htg
          cases htg
        | some e =>
          rw [het] at htg
          dsimp only at htg
          dsimp only
          by_cases hec : e < cutoff
          · rw [if_pos hec] at htg
            rw [if_pos hec, htg]
            dsimp only
            by_cases hc : fs.contains p
            · rw [if_pos hc]
              exact hnd.erase_eq_filter p
            · rw [if_neg hc]
              symm
              rw [List.filter_eq_self]
              intro a ha
              have hne : ¬ (a = p) := by
                intro hap
                subst hap
                exact hc (List.elem_eq_true_of_mem ha)
              simp [hne]
          · rw [if_neg hec] at htg
            cases htg
      have htgt : sweepTargets (i :: rest) cutoff
          = p :: sweepTargets rest cutoff := by
        unfold sweepTargets
        exact List.filterMap_cons_some htg
      rw [hstep, htgt, ih _ (hnd.filter _), List.filter_filter]
      apply List.filter_congr
      intro x hx
      by_cases hxp : x = p
      · subst hxp
        simp [List.contains_cons]
      · simp [List.contains_cons, hxp]

/-- C9 confirmed: `cleanup_old_files` never touches the ledger (first
component), the surviving filesystem is exactly the old one minus the
artifact paths of history entries whose `end_time` is older than
`now - max_age_hours` (so nothing else is ever deleted, and a targeted
path that does not exist is simply skipped, never an error), and
running the sweep twice in a row with the same cutoff changes nothing
more. -/
theorem C9_sweep (s : DLState) (now maxAgeHours : Nat) (fs : List String)
    (hnd : fs.Nodup) :
    (cleanupOldFiles s now maxAgeHours fs).1 = s ∧
    (cleanupOldFiles s now maxAgeHours fs).2
      = fs.filter (fun p =>
          !((sweepTargets s.history (now - maxAgeHours * 3600)).contains p)) ∧
    (cleanupOldFiles s now maxAgeHours
        (cleanupOldFiles s now maxAgeHours fs).2).2
      = (cleanupOldFiles s now maxAgeHours fs).2 := by
  refine ⟨rfl, ?_, ?_⟩
  · exact sweepFold_filter _ s.history fs hnd
  · show s.history.foldl (sweepStep (now - maxAgeHours * 3600))
        (s.history.foldl (sweepStep (now - maxAgeHours * 3600)) fs)
      = s.history.foldl (sweepStep (now - maxAgeHours * 3600)) fs
    rw [sweepFold_filter _ s.history fs hnd]
    rw [sweepFold_filter _ s.history _ (hnd.filter _)]
    rw [List.filter_filter]
    apply List.filter_congr
    intro x hx
    cases (sweepTargets s.history (now - maxAgeHours * 3600)).contains x <;>
      rfl

/-- A state whose ledger holds one completed entry that ended at time
10 with artifact `"old.mp4"`. -/
def exSweepState : DLState :=
  { initState with history :=
      [ { exInfo37 with status := .completed, progress := 100
                        filePath := some "old.mp4", fileSize := 5
                        endTime := some 10 } ] }

/-- Witness for `C9_sweep`: a two-file filesystem, a ledger with one
old completed entry pointing at `"old.mp4"`; the sweep removes exactly
that file, keeps the ledger, and is idempotent. -/
theorem C9_sweep_witness :
    (cleanupOldFiles exSweepState 90000 24 ["old.mp4", "new.mp4"]).1
      = exSweepState ∧
    (cleanupOldFiles exSweepState 90000 24 ["old.mp4", "new.mp4"]).2
      = (["old.mp4", "new.mp4"].filter (fun p =>
          !((sweepTargets exSweepState.history
              (90000 - 24 * 3600)).contains p))) ∧
    (cleanupOldFiles exSweepState 90000 24
        (cleanupOldFiles exSweepState 90000 24 ["old.mp4", "new.mp4"]).2).2
      = (cleanupOldFiles exSweepState 90000 24 ["old.mp4", "new.mp4"]).2 :=
  C9_sweep exSweepState 90000 24 ["old.mp4", "new.mp4"] (by decide)

/-! ### Claim C10: queued ids are always backed by records -/

/-- A state (not reachable) holding a queued id with no record, used to
exercise the worker's missing-record guard. -/
def exMissState : DLState := { initState with dlQueue := ["zzz"] }

/-- C10 confirmed: in every reachable state each id in the admission
queue has a record in the store (submission inserts the record before
enqueueing, and records are never deleted); and for any state at all,
if a dequeued id has no record the worker step only pops the queue —
store, history and worker phase are untouched and nothing is raised
(the step is a total function). -/
theorem C10_queue_backed {digest : String → String} {s : DLState}
    (hr : Reachable digest s) :
    (∀ did ∈ s.dlQueue, (storeFind s.active did).isSome = true) ∧
    (∀ (t : DLState) (did : String) (rest : List String),
      storeFind t.active did = none →
      workerPick t did rest = { t with dlQueue := rest }) := by
  constructor
  · intro did hd
    obtain ⟨i, hi, -⟩ := (reachable_inv hr).queueRec did hd
    rw [hi]
    rfl
  · intro t did rest h
    exact workerPick_none rest h

/-- Witness for `C10_queue_backed`: the queued id of `exS1` is backed
by a record, and the worker pops a recordless id without any other
effect. -/
theorem C10_queue_backed_witness :
    (storeFind exS1.active exId).isSome = true ∧
    workerPick exMissState "zzz" [] = { exMissState with dlQueue := [] } :=
  ⟨(C10_queue_backed exReach1).1 exId (by decide),
   (C10_queue_backed exReach1).2 exMissState "zzz" [] rfl⟩

end YTDL
